import Mathlib

/-!
Verification of the wire-cli session core (`src/lib.rs`).

The embedding models, from the source:
  * the `Client` state (`input`, `msgs : VecDeque<String>`, `state`,
    `scroll_state.selected()`), `Client::new`, and `add_msg` with its
    `MAX_MESSAGES` FIFO eviction (lib.rs 354-361);
  * the key-event branch of the `run` loop (lib.rs 190-277) as a pure
    step function `handle_key`, parametric in the payload type `Action`
    and the active input codec `decode` (serde_json/ron `from_str`);
  * the per-tick channel drain of the `run` loop (lib.rs 175-188) as
    `drain_tick`, parametric in the Debug renderings of `Event`/`Err`;
  * the two websocket pump tasks (lib.rs 77-150) as list-processing
    functions `read_ws_task` / `write_ws_task`.  Channel `send`s to the
    session are modelled as always succeeding (the receivers live for
    the whole session); the transport write and the incoming stream,
    which can genuinely fail, are modelled explicitly.

Machine integers: `usize` values (history length, selection index) are
modelled as `Nat`; Rust's `saturating_sub(1)` coincides with `Nat`
subtraction.
-/

/-- The maximum number of messages in the message history buffer (lib.rs 18). -/
def MAX_MESSAGES : Nat := 100

/-- The state of the app (lib.rs 21-24): which UI region has focus. -/
inductive State where
  | InputSelected
  | MsgListSelected
deriving Repr, DecidableEq

/-- External configuration of the client (lib.rs 28-30). -/
structure ClientCfg where
  url : String
deriving Repr, DecidableEq

/-- The session-owned state of `Client` (lib.rs 34-46).  The `msgs`
`VecDeque` is a list whose head is the queue front (oldest entry);
`scroll_state` is the `Option<usize>` held by `ListState::selected()`.
The phantom payload types are not state and are omitted. -/
structure Client where
  cfg : ClientCfg
  input : String
  msgs : List String
  state : State
  scroll_state : Option Nat
deriving Repr, DecidableEq

/-- `Client::new` (lib.rs 55-64): empty input and history, input focused,
no selection. -/
def Client.new (cfg : ClientCfg) : Client :=
  { cfg := cfg
    input := ""
    msgs := []
    state := State.InputSelected
    scroll_state := none }

/-- `Client::add_msg` (lib.rs 354-361): if `msgs.len() >= MAX_MESSAGES`,
pop the front (oldest) entry, then push the new message at the back. -/
def add_msg (c : Client) (msg : String) : Client :=
  let msgs := if MAX_MESSAGES ≤ c.msgs.length then c.msgs.tail else c.msgs
  { c with msgs := msgs ++ [msg] }

/-- Key codes distinguished by the `run` loop; every other
`crossterm::event::KeyCode` falls into the wildcard arm. -/
inductive KeyCode where
  | Esc
  | Tab
  | Enter
  | Backspace
  | Char (ch : Char)
  | OtherKey
deriving Repr, DecidableEq

/-- A key event: its code and whether the SHIFT modifier is held
(the only modifier the `run` loop inspects). -/
structure KeyEvent where
  code : KeyCode
  shift : Bool
deriving Repr, DecidableEq

/-- Result of one key-event step of the `run` loop: the updated client,
the `Action`s queued on the outbound (`req_tx`) channel during the step,
and whether the loop `break`s (session ends). -/
structure StepResult (Action : Type) where
  client : Client
  outbound : List Action
  quit : Bool
deriving Repr, DecidableEq

/-- The key-event branch of `Client::run` (lib.rs 190-277), parametric in
the active input codec `decode : String → Option Action` (the
`from_str::<Action>` of the selected `in-json`/`in-ron` feature; only
success or failure of the parse is observable, the error value is unused).
Mirrors the nested `match` on `self.state` and `evt.code`. -/
def handle_key {Action : Type} (decode : String → Option Action)
    (c : Client) (evt : KeyEvent) : StepResult Action :=
  match c.state with
  | State.InputSelected =>
    match evt.code with
    | KeyCode.Esc => ⟨c, [], true⟩
    | KeyCode.Tab => ⟨{ c with state := State.MsgListSelected }, [], false⟩
    | KeyCode.Enter =>
      if c.input = "" then ⟨c, [], false⟩
      else
        let c1 := add_msg c ("sent: " ++ c.input)
        match decode c1.input with
        | none =>
          let c2 := add_msg c1 ("error: invalid request format: " ++ c1.input)
          ⟨{ c2 with input := "" }, [], false⟩
        | some req => ⟨{ c1 with input := "" }, [req], false⟩
    | KeyCode.Backspace => ⟨{ c with input := c.input.dropRight 1 }, [], false⟩
    | KeyCode.Char ch => ⟨{ c with input := c.input.push ch }, [], false⟩
    | KeyCode.OtherKey => ⟨c, [], false⟩
  | State.MsgListSelected =>
    match evt.code with
    | KeyCode.Esc => ⟨c, [], true⟩
    | KeyCode.Backspace =>
      if evt.shift then
        ⟨add_msg { c with input := "" } "cleared input box", [], false⟩
      else ⟨c, [], false⟩
    | KeyCode.Tab => ⟨{ c with state := State.InputSelected }, [], false⟩
    | KeyCode.Char ch =>
      if ch = 'j' then
        match c.scroll_state with
        | some idx =>
          if idx < c.msgs.length - 1 then ⟨{ c with scroll_state := some (idx + 1) }, [], false⟩
          else ⟨c, [], false⟩
        | none =>
          if c.msgs.isEmpty then ⟨c, [], false⟩
          else ⟨{ c with scroll_state := some 0 }, [], false⟩
      else if ch = 'k' then
        match c.scroll_state with
        | some idx =>
          if 0 < idx then ⟨{ c with scroll_state := some (idx - 1) }, [], false⟩
          else ⟨c, [], false⟩
        | none =>
          if c.msgs.isEmpty then ⟨c, [], false⟩
          else ⟨{ c with scroll_state := some 0 }, [], false⟩
      else ⟨c, [], false⟩
    | _ => ⟨c, [], false⟩

/-- Repeated key handling: fold `handle_key` over a list of key events,
keeping the client state (used for sequences of selection moves, which
never queue an action and never quit). -/
def applyKeys {Action : Type} (decode : String → Option Action)
    (c : Client) (keys : List KeyEvent) : Client :=
  keys.foldl (fun acc k => (handle_key decode acc k).client) c

/-- An inbound message `Res<Event, Err>` (lib.rs 15): a decoded event or
a decoded application error. -/
inductive ResMsg (Event Err : Type) where
  | ok (e : Event)
  | err (e : Err)
deriving Repr, DecidableEq

/-- The history line produced for one inbound message (lib.rs 176-183):
`"received: {:?}"` for an event, `"error: {:?}"` for an error, with the
Debug renderings supplied as `fmtE`/`fmtErr`. -/
def res_line {Event Err : Type} (fmtE : Event → String) (fmtErr : Err → String) :
    ResMsg Event Err → String
  | ResMsg.ok e => "received: " ++ fmtE e
  | ResMsg.err e => "error: " ++ fmtErr e

/-- The per-tick channel drain of `Client::run` (lib.rs 175-188): first
drain every pending inbound message from `res_rx`, appending one line per
message via `add_msg`, then drain every pending diagnostic from `sys_rx`,
appending `"internal message: …"` lines.  `inbound` and `diags` are the
channel contents in FIFO order. -/
def drain_tick {Event Err : Type} (fmtE : Event → String) (fmtErr : Err → String)
    (c : Client) (inbound : List (ResMsg Event Err)) (diags : List String) : Client :=
  let c1 := inbound.foldl (fun acc r => add_msg acc (res_line fmtE fmtErr r)) c
  diags.foldl (fun acc m => add_msg acc ("internal message: " ++ m)) c1

/-- A websocket frame as the read pump distinguishes them (lib.rs 85-111):
a text frame, or any other frame kind (ignored by the wildcard arm). -/
inductive WsMessage where
  | text (s : String)
  | other
deriving Repr, DecidableEq

/-- The read-pump task (lib.rs 77-122) over the whole incoming stream:
each stream item is a received frame or a transport error (carrying its
`to_string()`).  Returns the messages pushed onto the inbound (`res_tx`)
channel and the diagnostics pushed onto the `sys_tx` channel, in order.
`decode` is the `from_str::<Res<Event, Err>>` of the active codec, with a
decode failure carrying `err.to_string()`.  Channel sends are modelled as
succeeding; the task ends when the stream is exhausted. -/
def read_ws_task {R : Type} (decode : String → Except String R) :
    List (Except String WsMessage) → List R × List String
  | [] => ([], [])
  | Except.ok (WsMessage.text t) :: rest =>
    match decode t with
    | Except.ok res =>
      let r := read_ws_task decode rest
      (res :: r.1, r.2)
    | Except.error e =>
      let r := read_ws_task decode rest
      (r.1, e :: r.2)
  | Except.ok WsMessage.other :: rest => read_ws_task decode rest
  | Except.error e :: rest =>
    let r := read_ws_task decode rest
    (r.1, e :: r.2)

/-- The write-pump task (lib.rs 125-150) over the queued `Action`s:
`encode` is the `to_string` of the active codec (failure carrying
`err.to_string()`); `sendOk k` tells whether the k-th transport send
succeeds.  Returns the frames successfully sent on the transport and the
diagnostics pushed onto `sys_tx`.  On encode failure the pump reports and
continues; on transport send failure the loop `break`s. -/
def write_ws_task {Action : Type} (encode : Action → Except String String)
    (sendOk : Nat → Bool) : List Action → Nat → List String × List String
  | [], _ => ([], [])
  | req :: rest, k =>
    match encode req with
    | Except.error e =>
      let r := write_ws_task encode sendOk rest k
      (r.1, e :: r.2)
    | Except.ok msg =>
      if sendOk k then
        let r := write_ws_task encode sendOk rest (k + 1)
        (msg :: r.1, r.2)
      else ([], [])

/-- The last `n` elements of a list, in order. -/
def lastN {α : Type} (n : Nat) (l : List α) : List α :=
  l.drop (l.length - n)

/-- The selection index, when set, is a valid position in the history. -/
def selectionValid (c : Client) : Prop :=
  match c.scroll_state with
  | none => True
  | some i => i < c.msgs.length

/-! ### Helper lemmas about the history buffer -/

theorem lastN_of_length_le {α : Type} {n : Nat} {l : List α} (h : l.length ≤ n) :
    lastN n l = l := by
  simp [lastN, Nat.sub_eq_zero_of_le h]

theorem lastN_cons {α : Type} {n : Nat} (a : α) {l : List α} (h : n ≤ l.length) :
    lastN n (a :: l) = lastN n l := by
  unfold lastN
  rw [List.length_cons, show l.length + 1 - n = (l.length - n) + 1 by omega,
    List.drop_succ_cons]

theorem lastN_length {α : Type} (n : Nat) (l : List α) :
    (lastN n l).length = min l.length n := by
  simp [lastN]
  omega

theorem foldl_add_msg_msgs (ms : List String) :
    ∀ c : Client, c.msgs.length ≤ MAX_MESSAGES →
      (ms.foldl add_msg c).msgs = lastN MAX_MESSAGES (c.msgs ++ ms) := by
  induction ms with
  | nil =>
    intro c h
    simpa using (lastN_of_length_le (by simpa using h)).symm
  | cons m rest ih =>
    intro c h
    rw [List.foldl_cons]
    by_cases hfull : MAX_MESSAGES ≤ c.msgs.length
    · have hlen : c.msgs.length = MAX_MESSAGES := le_antisymm h hfull
      obtain ⟨a, t, hmsgs⟩ : ∃ a t, c.msgs = a :: t := by
        cases hm : c.msgs with
        | nil => rw [hm] at hlen; simp [MAX_MESSAGES] at hlen
        | cons a t => exact ⟨a, t, rfl⟩
      have htlen : t.length + 1 = MAX_MESSAGES := by
        rw [hmsgs] at hlen; simpa using hlen
      have hadd : (add_msg c m).msgs = t ++ [m] := by
        simp only [add_msg, hmsgs]
        rw [if_pos (by simp [htlen])]
        rfl
      have hrec := ih (add_msg c m) (by rw [hadd]; simp; omega)
      rw [hrec, hadd, hmsgs]
      rw [List.cons_append, List.append_assoc]
      rw [lastN_cons a (by simp; omega)]
      simp
    · have hadd : (add_msg c m).msgs = c.msgs ++ [m] := by
        simp [add_msg, hfull]
      have hrec := ih (add_msg c m) (by rw [hadd]; simp; omega)
      rw [hrec, hadd]
      simp

theorem foldl_add_msg_frame (ms : List String) :
    ∀ c : Client, (ms.foldl add_msg c).input = c.input ∧
      (ms.foldl add_msg c).state = c.state ∧
      (ms.foldl add_msg c).scroll_state = c.scroll_state := by
  induction ms with
  | nil => intro c; exact ⟨rfl, rfl, rfl⟩
  | cons m rest ih =>
    intro c
    rw [List.foldl_cons]
    exact ih (add_msg c m)

theorem foldl_add_msg_of_map {α : Type} (f : α → String) (l : List α) (c : Client) :
    l.foldl (fun acc r => add_msg acc (f r)) c = (l.map f).foldl add_msg c := by
  induction l generalizing c with
  | nil => rfl
  | cons a rest ih => simpa using ih (add_msg c (f a))

/-! ### C1: history bound and strict FIFO eviction -/

/-- C1: appending any sequence `ms` of N DisplayLines to the initially
empty history via `add_msg` leaves exactly the last `min N MAX_MESSAGES`
appended lines, in arrival order (`lastN` keeps a suffix, so insertion is
at the tail, the head is evicted at capacity, and nothing is reordered),
and the history length is `min N MAX_MESSAGES`. -/
theorem history_bound (cfg : ClientCfg) (ms : List String) :
    (ms.foldl add_msg (Client.new cfg)).msgs = lastN MAX_MESSAGES ms ∧
    (ms.foldl add_msg (Client.new cfg)).msgs.length = min ms.length MAX_MESSAGES := by
  have h : (ms.foldl add_msg (Client.new cfg)).msgs = lastN MAX_MESSAGES ms := by
    simpa [Client.new] using foldl_add_msg_msgs ms (Client.new cfg) (by simp [Client.new])
  exact ⟨h, by rw [h, lastN_length]⟩

/-! ### C10: add_msg only touches the history -/

/-- C10: `add_msg` (also in the at-capacity, head-evicting case, since `c`
is arbitrary) leaves the input buffer, the focus mode, the selection index
and the configuration unchanged; in particular a set selection index is
neither shifted nor cleared by an eviction, so afterwards it denotes the
position one logical message newer. -/
theorem add_msg_frame (c : Client) (m : String) :
    (add_msg c m).input = c.input ∧ (add_msg c m).state = c.state ∧
    (add_msg c m).scroll_state = c.scroll_state ∧ (add_msg c m).cfg = c.cfg :=
  ⟨rfl, rfl, rfl, rfl⟩

/-! ### C4: inbound pump behaviour on transport error -/

/-- C4 counterexample: with a decode that accepts every text frame, a
stream consisting of a transport error followed by a good text frame still
yields that frame on the inbound channel — the pump pushed the diagnostic
for the error and kept reading, contradicting the claim that it terminates
after a transport error and reads no further frames. -/
theorem inbound_pump_counterexample :
    read_ws_task (fun t => (Except.ok t : Except String String))
      [Except.error "conn reset", Except.ok (WsMessage.text "hi")] =
      (["hi"], ["conn reset"]) := by decide

/-- C4 amended: on a transport read error the inbound pump pushes one
DiagnosticMessage (the error's rendering) onto diagnostics and continues
with the rest of the stream exactly as if the error item were removed;
the pump terminates only when the stream is exhausted, and then without
pushing any final diagnostic. -/
theorem inbound_pump_error_continues {R : Type} (decode : String → Except String R)
    (e : String) (rest : List (Except String WsMessage)) :
    read_ws_task decode (Except.error e :: rest) =
      ((read_ws_task decode rest).1, e :: (read_ws_task decode rest).2) ∧
    read_ws_task decode [] = (([] : List R), ([] : List String)) :=
  ⟨rfl, rfl⟩

/-! ### C3: outbound pump behaviour on encode and transport failure -/

/-- C3 counterexample: with an encode that always succeeds and a transport
whose every send fails, the pump processes the queue `[0, 1]` by
terminating at the first failed send with no diagnostic pushed and the
second action never processed — contradicting the claim that a transport
send failure produces a DiagnosticMessage and the pump continues. -/
theorem outbound_pump_counterexample :
    write_ws_task (fun _ : Nat => Except.ok "frame") (fun _ => false) [0, 1] 0 =
      ([], []) := by decide

/-- C3 amended: on an encode failure the outbound pump pushes the error's
rendering as a DiagnosticMessage and continues with the remaining queued
Actions; on a transport send failure it terminates immediately, pushing no
DiagnosticMessage and processing no further Actions. -/
theorem outbound_pump_failure_modes {Action : Type} (encode : Action → Except String String)
    (sendOk : Nat → Bool) (a : Action) (rest : List Action) (k : Nat) :
    (∀ e, encode a = Except.error e →
      write_ws_task encode sendOk (a :: rest) k =
        ((write_ws_task encode sendOk rest k).1,
          e :: (write_ws_task encode sendOk rest k).2)) ∧
    (∀ msg, encode a = Except.ok msg → sendOk k = false →
      write_ws_task encode sendOk (a :: rest) k = ([], [])) := by
  constructor
  · intro e he
    simp [write_ws_task, he]
  · intro msg hok hfail
    simp [write_ws_task, hok, hfail]

/-- Witness for the amended C3 theorem at concrete inputs: an
always-failing encoder yields one diagnostic and an empty send list on a
one-element queue, and an always-succeeding encoder over a dead transport
yields nothing at all on a two-element queue. -/
theorem outbound_pump_failure_modes_witness :
    write_ws_task (fun _ : Nat => Except.error "bad") (fun _ => true) [0] 0 =
      ([], ["bad"]) ∧
    write_ws_task (fun _ : Nat => Except.ok "frame") (fun _ => false) [0, 1] 1 =
      ([], []) := by
  constructor
  · have h := (outbound_pump_failure_modes (fun _ : Nat => Except.error "bad")
      (fun _ => true) 0 [] 0).1 "bad" rfl
    simpa using h
  · exact (outbound_pump_failure_modes (fun _ : Nat => Except.ok "frame")
      (fun _ => false) 0 [1] 1).2 "frame" rfl rfl

/-! ### C2: submitting input that fails to decode -/

/-- C2 counterexample: submitting `not-json` under a codec that rejects it
makes the history gain two lines — `sent: not-json` first, then the
`error: invalid request format: not-json` diagnostic — not exactly the
one error line the claim states. -/
theorem invalid_submit_counterexample :
    (handle_key (fun _ => (none : Option Nat))
        { cfg := ⟨"ws://x"⟩, input := "not-json", msgs := [],
          state := State.InputSelected, scroll_state := none }
        ⟨KeyCode.Enter, false⟩).client.msgs =
      ["sent: not-json", "error: invalid request format: not-json"] := by decide

/-- C2 amended: pressing Enter in InputFocused with a non-empty buffer
whose text the active codec rejects queues no outbound message, appends
exactly two lines to the history — `sent: <text>` then
`error: invalid request format: <text>` (each through `add_msg`, so
subject to FIFO eviction, captured by `lastN`) — clears the input buffer,
and leaves focus and selection unchanged; the session does not end. -/
theorem invalid_submit_effects {Action : Type} (decode : String → Option Action)
    (c : Client) (sh : Bool) (hst : c.state = State.InputSelected)
    (hne : c.input ≠ "") (hdec : decode c.input = none)
    (hlen : c.msgs.length ≤ MAX_MESSAGES) :
    (handle_key decode c ⟨KeyCode.Enter, sh⟩).outbound = [] ∧
    (handle_key decode c ⟨KeyCode.Enter, sh⟩).client.msgs =
      lastN MAX_MESSAGES (c.msgs ++
        ["sent: " ++ c.input, "error: invalid request format: " ++ c.input]) ∧
    (handle_key decode c ⟨KeyCode.Enter, sh⟩).client.input = "" ∧
    (handle_key decode c ⟨KeyCode.Enter, sh⟩).client.state = c.state ∧
    (handle_key decode c ⟨KeyCode.Enter, sh⟩).client.scroll_state = c.scroll_state ∧
    (handle_key decode c ⟨KeyCode.Enter, sh⟩).quit = false := by
  obtain ⟨cfg, inp, msgs, st, sc⟩ := c
  simp only at hst hne hdec hlen
  subst hst
  have hdec1 : decode (add_msg ⟨cfg, inp, msgs, State.InputSelected, sc⟩
      ("sent: " ++ inp)).input = none := hdec
  refine ⟨?_, ?_, ?_, ?_, ?_, ?_⟩ <;> simp only [handle_key, if_neg hne, hdec1] <;>
    try rfl
  have h := foldl_add_msg_msgs
    ["sent: " ++ inp, "error: invalid request format: " ++ inp]
    ⟨cfg, inp, msgs, State.InputSelected, sc⟩ hlen
  simpa using h

/-- Witness for the amended C2 theorem at the concrete rejected submission
`not-json` with an empty history. -/
theorem invalid_submit_effects_witness :
    (handle_key (fun _ => (none : Option Nat))
        { cfg := ⟨"ws://x"⟩, input := "not-json", msgs := [],
          state := State.InputSelected, scroll_state := none }
        ⟨KeyCode.Enter, false⟩).outbound = [] :=
  (invalid_submit_effects (fun _ => (none : Option Nat))
    { cfg := ⟨"ws://x"⟩, input := "not-json", msgs := [],
      state := State.InputSelected, scroll_state := none }
    false rfl (by decide) rfl (by decide)).1

/-! ### C6: empty submit is a no-op -/

/-- C6: pressing Enter in InputFocused with an empty input buffer changes
nothing: the client (buffer, history, focus, selection) is returned as-is,
no Action is queued, and the session does not end. -/
theorem empty_submit_noop {Action : Type} (decode : String → Option Action)
    (c : Client) (sh : Bool) (hst : c.state = State.InputSelected)
    (hempty : c.input = "") :
    handle_key decode c ⟨KeyCode.Enter, sh⟩ = ⟨c, [], false⟩ := by
  obtain ⟨cfg, inp, msgs, st, sc⟩ := c
  simp only at hst hempty
  subst hst
  simp [handle_key, hempty]

/-- Witness for the empty-submit theorem at a concrete client with an
empty buffer and a codec that would accept anything. -/
theorem empty_submit_noop_witness :
    handle_key (fun s => (some s : Option String))
        { cfg := ⟨"ws://x"⟩, input := "", msgs := ["old"],
          state := State.InputSelected, scroll_state := some 0 }
        ⟨KeyCode.Enter, true⟩ =
      ⟨{ cfg := ⟨"ws://x"⟩, input := "", msgs := ["old"],
          state := State.InputSelected, scroll_state := some 0 }, [], false⟩ :=
  empty_submit_noop (fun s => (some s : Option String))
    { cfg := ⟨"ws://x"⟩, input := "", msgs := ["old"],
      state := State.InputSelected, scroll_state := some 0 }
    true rfl rfl

/-! ### C7: Tab toggles focus and is its own inverse -/

/-- C7: from InputFocused, Tab moves focus to HistoryFocused while
changing nothing else (the result is exactly the record update of the
focus field), and a second Tab restores the original client exactly, so
Tab composed with Tab is the identity on the session state. -/
theorem tab_toggle {Action : Type} (decode : String → Option Action)
    (c : Client) (sh sh' : Bool) (hst : c.state = State.InputSelected) :
    (handle_key decode c ⟨KeyCode.Tab, sh⟩).client =
      { c with state := State.MsgListSelected } ∧
    (handle_key decode
        (handle_key decode c ⟨KeyCode.Tab, sh⟩).client ⟨KeyCode.Tab, sh'⟩).client = c := by
  obtain ⟨cfg, inp, msgs, st, sc⟩ := c
  simp only at hst
  subst hst
  exact ⟨rfl, rfl⟩

/-- Witness for the Tab-toggle theorem at a concrete input-focused
client. -/
theorem tab_toggle_witness :
    (handle_key (fun _ => (none : Option Nat))
        { cfg := ⟨"ws://x"⟩, input := "abc", msgs := ["m"],
          state := State.InputSelected, scroll_state := some 0 }
        ⟨KeyCode.Tab, false⟩).client =
      { cfg := ⟨"ws://x"⟩, input := "abc", msgs := ["m"],
        state := State.MsgListSelected, scroll_state := some 0 } :=
  (tab_toggle (fun _ => (none : Option Nat))
    { cfg := ⟨"ws://x"⟩, input := "abc", msgs := ["m"],
      state := State.InputSelected, scroll_state := some 0 }
    false false rfl).1

/-! ### C5: per-tick drain order -/

/-- C5: one tick's drain appends, through `add_msg`, one line per pending
inbound message (`received: …` for an event, `error: …` for an
application error, via `res_line`) in the inbound channel's FIFO order,
followed by one `internal message: …` line per pending diagnostic in the
diagnostics channel's FIFO order — so within the tick every
inbound-sourced line precedes every diagnostic-sourced line — and this
holds for an arbitrary client, hence regardless of focus state, which the
drain also leaves unchanged (as it does the input buffer and the
selection). -/
theorem tick_drain_order {Event Err : Type} (fmtE : Event → String)
    (fmtErr : Err → String) (c : Client) (inbound : List (ResMsg Event Err))
    (diags : List String) (hlen : c.msgs.length ≤ MAX_MESSAGES) :
    (drain_tick fmtE fmtErr c inbound diags).msgs =
      lastN MAX_MESSAGES (c.msgs ++ inbound.map (res_line fmtE fmtErr) ++
        diags.map (fun m => "internal message: " ++ m)) ∧
    (drain_tick fmtE fmtErr c inbound diags).state = c.state ∧
    (drain_tick fmtE fmtErr c inbound diags).input = c.input ∧
    (drain_tick fmtE fmtErr c inbound diags).scroll_state = c.scroll_state := by
  have hdt : drain_tick fmtE fmtErr c inbound diags =
      (inbound.map (res_line fmtE fmtErr) ++
        diags.map (fun m => "internal message: " ++ m)).foldl add_msg c := by
    unfold drain_tick
    rw [foldl_add_msg_of_map (res_line fmtE fmtErr) inbound c,
      foldl_add_msg_of_map (fun m => "internal message: " ++ m) diags,
      ← List.foldl_append]
  refine ⟨?_, ?_, ?_, ?_⟩
  · rw [hdt, foldl_add_msg_msgs _ c hlen, List.append_assoc]
  · rw [hdt]; exact (foldl_add_msg_frame _ c).2.1
  · rw [hdt]; exact (foldl_add_msg_frame _ c).1
  · rw [hdt]; exact (foldl_add_msg_frame _ c).2.2

/-- Witness for the tick-drain theorem at a concrete client (in history
focus, with one prior line), one pending event, one pending application
error and one pending diagnostic. -/
theorem tick_drain_order_witness :
    (drain_tick (fun n : Nat => toString n) (fun s : String => s)
        { cfg := ⟨"ws://x"⟩, input := "buf", msgs := ["old"],
          state := State.MsgListSelected, scroll_state := some 0 }
        [ResMsg.ok 7, ResMsg.err "boom"] ["diag"]).msgs =
      ["old", "received: 7", "error: boom", "internal message: diag"] := by
  have h := (tick_drain_order (fun n : Nat => toString n) (fun s : String => s)
    { cfg := ⟨"ws://x"⟩, input := "buf", msgs := ["old"],
      state := State.MsgListSelected, scroll_state := some 0 }
    [ResMsg.ok 7, ResMsg.err "boom"] ["diag"] (by decide)).1
  rw [h]
  decide

/-! ### C8: selection stays clamped under j and k -/

theorem jk_step {Action : Type} (decode : String → Option Action) (c : Client)
    (k : KeyEvent) (hst : c.state = State.MsgListSelected)
    (hk : k.code = KeyCode.Char 'j' ∨ k.code = KeyCode.Char 'k')
    (hsel : selectionValid c) :
    (handle_key decode c k).client.state = State.MsgListSelected ∧
    (handle_key decode c k).client.msgs = c.msgs ∧
    selectionValid (handle_key decode c k).client := by
  obtain ⟨cfg, inp, msgs, st, sc⟩ := c
  obtain ⟨code, shv⟩ := k
  simp only at hst hk
  subst hst
  rcases hk with h | h <;> subst h
  · cases sc with
    | none =>
      by_cases hemp : msgs.isEmpty <;>
        simp_all [handle_key, selectionValid, List.isEmpty_iff, List.length_pos]
    | some idx =>
      simp only [selectionValid] at hsel
      by_cases hlt : idx < msgs.length - 1 <;>
        refine ⟨?_, ?_, ?_⟩ <;> simp [handle_key, selectionValid, hlt] <;> omega
  · cases sc with
    | none =>
      by_cases hemp : msgs.isEmpty <;>
        simp_all [handle_key, selectionValid, List.isEmpty_iff, List.length_pos]
    | some idx =>
      simp only [selectionValid] at hsel
      by_cases hpos : 0 < idx <;>
        refine ⟨?_, ?_, ?_⟩ <;> simp [handle_key, selectionValid, hpos] <;> omega

/-- C8: starting in HistoryFocused from no selection or any in-range
selection, any sequence of `j`/`k` presses leaves the history untouched
and keeps the selection in range: it is never an index ≥ the history
length (`selectionValid`), and, the index being a `Nat` option, it can
never be negative. -/
theorem selection_clamped {Action : Type} (decode : String → Option Action)
    (keys : List KeyEvent) :
    ∀ c : Client, c.state = State.MsgListSelected → selectionValid c →
      (∀ k ∈ keys, k.code = KeyCode.Char 'j' ∨ k.code = KeyCode.Char 'k') →
      selectionValid (applyKeys decode c keys) ∧
      (applyKeys decode c keys).msgs = c.msgs ∧
      (applyKeys decode c keys).state = State.MsgListSelected := by
  induction keys with
  | nil => intro c h1 h2 _; exact ⟨h2, rfl, h1⟩
  | cons k rest ih =>
    intro c h1 h2 h3
    have hk := h3 k (List.mem_cons_self k rest)
    have step := jk_step decode c k h1 hk h2
    have hrest := ih ((handle_key decode c k).client) step.1 step.2.2
      (fun k' hk' => h3 k' (List.mem_cons_of_mem k hk'))
    simp only [applyKeys, List.foldl_cons] at hrest ⊢
    exact ⟨hrest.1, hrest.2.1.trans step.2.1, hrest.2.2⟩

/-- Witness for the selection-clamping theorem: a two-line history, no
initial selection, and the key sequence `j j j k`. -/
theorem selection_clamped_witness :
    selectionValid (applyKeys (fun _ => (none : Option Nat))
      { cfg := ⟨"ws://x"⟩, input := "", msgs := ["a", "b"],
        state := State.MsgListSelected, scroll_state := none }
      [⟨KeyCode.Char 'j', false⟩, ⟨KeyCode.Char 'j', false⟩,
        ⟨KeyCode.Char 'j', false⟩, ⟨KeyCode.Char 'k', false⟩]) :=
  (selection_clamped (fun _ => (none : Option Nat))
    [⟨KeyCode.Char 'j', false⟩, ⟨KeyCode.Char 'j', false⟩,
      ⟨KeyCode.Char 'j', false⟩, ⟨KeyCode.Char 'k', false⟩]
    { cfg := ⟨"ws://x"⟩, input := "", msgs := ["a", "b"],
      state := State.MsgListSelected, scroll_state := none }
    rfl True.intro (by decide)).1

/-! ### C9: j and k from an unset selection -/

/-- C9 counterexample: in HistoryFocused with an empty history and no
selection, pressing `j` leaves the selection unset — the code selects the
first entry only for a non-empty history, so the claim's unconditional
"selects index 0, including when the history is empty" is false. -/
theorem select_first_counterexample :
    (handle_key (fun _ => (none : Option Nat))
        { cfg := ⟨"ws://x"⟩, input := "", msgs := [],
          state := State.MsgListSelected, scroll_state := none }
        ⟨KeyCode.Char 'j', false⟩).client.scroll_state = none := by decide

/-- C9 amended: in HistoryFocused with no selection set, pressing `j` or
`k` selects the first history entry (index 0) when the history is
non-empty, and leaves the selection unset when the history is empty. -/
theorem select_first_amended {Action : Type} (decode : String → Option Action)
    (c : Client) (sh : Bool) (code : KeyCode)
    (hst : c.state = State.MsgListSelected) (hsel : c.scroll_state = none)
    (hcode : code = KeyCode.Char 'j' ∨ code = KeyCode.Char 'k') :
    (handle_key decode c ⟨code, sh⟩).client.scroll_state =
      if c.msgs.isEmpty then none else some 0 := by
  obtain ⟨cfg, inp, msgs, st, sc⟩ := c
  simp only at hst hsel
  subst hst
  subst hsel
  rcases hcode with h | h <;> subst h <;> by_cases hemp : msgs.isEmpty <;>
    simp [handle_key, hemp]

/-- Witness for the amended C9 theorem: pressing `k` with no selection on
a one-line history selects index 0. -/
theorem select_first_amended_witness :
    (handle_key (fun _ => (none : Option Nat))
        { cfg := ⟨"ws://x"⟩, input := "", msgs := ["a"],
          state := State.MsgListSelected, scroll_state := none }
        ⟨KeyCode.Char 'k', false⟩).client.scroll_state = some 0 := by
  simpa using select_first_amended (fun _ => (none : Option Nat))
    { cfg := ⟨"ws://x"⟩, input := "", msgs := ["a"],
      state := State.MsgListSelected, scroll_state := none }
    false (KeyCode.Char 'k') rfl rfl (Or.inr rfl)
